import Mathlib

/-!
Verification development for `tabnews_cli.py`, a terminal client for the
TabNews platform.  The Python source is embedded shallowly:

* `textwrap.fill` (CPython, default options, as called by
  `TabNewsUI.wrap_text`) is modelled at the character level by
  `expandtabs`, `mungeWhitespace`, `wordSplit`, `wrapChunks` and `fill`.
  The hyphen sub-splitting of CPython's word-separation regex
  (`break_on_hyphens=True`) is not modelled, so the model coincides with
  CPython on texts containing no `-`; exotic Unicode whitespace
  (U+0085, U+00A0, ...) is likewise not modelled.  The wrapping loop
  carries an explicit fuel argument bounding its iteration count; every
  iteration consumes at least one character or one chunk, so the initial
  fuel `2 * total length + number of chunks + 1` is never exhausted.
* The HTTP layer is abstracted by `Response`, the parsed JSON answer of
  one request (status code, optional `message` field of the body, and the
  payload the body parses to); `get_contents`, `get_user_contents`,
  `get_content` and `get_comments` are the `TabNewsAPI` methods applied
  to such a response, raising (`Except.error`) exactly as the source does.
* The view controller `TabNewsUI` is a state record `UIState`; every key
  handler becomes a function from a state (and a `TabNewsAPIOracle`, the
  network's answers at that instant) to `Except String UIState`, where
  `Except.error "IndexError"` models an uncaught Python `IndexError`.
  Python's (possibly negative) list indexing is modelled by `pyGet`,
  `str.split('\n')` by `pySplitNl` and `'\n'.join` by `pyJoinNl`.
  The prompt-toolkit layout/styling, the `login` call and the environment
  token (never attached to any request in the source) play no part in any
  claim and are not modelled.
-/

deriving instance DecidableEq for Except

namespace TabNews

/-! ## Model of CPython `textwrap` (default `TextWrapper` options) -/

/-- The six characters of CPython `textwrap._whitespace`. -/
def isTwWs (c : Char) : Bool :=
  c == ' ' || c == '\t' || c == '\n' || c == '\x0b' || c == '\x0c' || c == '\r'

/-- CPython `str.expandtabs(8)` (the first step of
`TextWrapper._munge_whitespace` with `expand_tabs=True`): each tab becomes
spaces up to the next multiple-of-8 column; `'\n'` and `'\r'` reset the
column. -/
def expandtabs : List Char → Nat → List Char
  | [], _ => []
  | c :: rest, col =>
    if c == '\t' then
      List.replicate (8 - col % 8) ' ' ++ expandtabs rest (col + (8 - col % 8))
    else if c == '\n' || c == '\r' then c :: expandtabs rest 0
    else c :: expandtabs rest (col + 1)

/-- `TextWrapper._munge_whitespace` with the default options: expand tabs,
then replace each of the six whitespace characters by a single space
(`replace_whitespace=True`). -/
def mungeWhitespace (text : List Char) : List Char :=
  (expandtabs text 0).map (fun c => if isTwWs c then ' ' else c)

/-- Accumulator recursion behind `wordSplit`; `cur` is the current run,
reversed. -/
def wordSplitAux : List Char → List Char → List (List Char)
  | [], cur => if cur.isEmpty then [] else [cur.reverse]
  | c :: rest, cur =>
    match cur with
    | [] => wordSplitAux rest [c]
    | d :: _ =>
      if (c == ' ') == (d == ' ') then wordSplitAux rest (c :: cur)
      else cur.reverse :: wordSplitAux rest [c]

/-- `TextWrapper._split` on munged text: alternating maximal runs of spaces
and of non-spaces, in order, no empty chunks (after munging, `' '` is the
only remaining whitespace character of the six).  CPython's additional
sub-splitting at hyphens is not modelled. -/
def wordSplit (text : List Char) : List (List Char) := wordSplitAux text []

/-- The greedy inner loop of `TextWrapper._wrap_chunks`: pop chunks onto the
current line while they fit.  Returns (taken chunks, remaining chunks). -/
def greedyTake (width : Nat) (curLen : Nat) : List (List Char) → List (List Char) × List (List Char)
  | [] => ([], [])
  | c :: rest =>
    if curLen + c.length ≤ width then
      let p := greedyTake width (curLen + c.length) rest
      (c :: p.1, p.2)
    else ([], c :: rest)

/-- `chunk.strip() == ''` for the chunks this model manipulates. -/
def allSpaceChunk (l : List Char) : Bool := l.all (fun c => isTwWs c)

/-- Drop the last piece of the current line when it is pure whitespace
(`drop_whitespace=True`, trailing case). -/
def dropTrailingWs (pieces : List (List Char)) : List (List Char) :=
  match pieces.getLast? with
  | none => pieces
  | some lst => if allSpaceChunk lst then pieces.dropLast else pieces

/-- `TextWrapper._handle_long_word` (with `break_long_words=True`; the
hyphen refinement of `break_on_hyphens` is not modelled) followed by the
trailing-whitespace drop: when the next chunk is longer than the width, cut
`space_left = width - cur_len` characters off its front (at least one when
the width is below 1).  Returns (pieces of the produced line, remaining
chunks). -/
def handleLong (width : Nat) (taken : List (List Char)) :
    List (List Char) → List (List Char) × List (List Char)
  | [] => (dropTrailingWs taken, [])
  | d :: drest =>
    if width < d.length then
      (dropTrailingWs
        (taken ++ [d.take (if width < 1 then 1 else width - (taken.map List.length).sum)]),
       d.drop (if width < 1 then 1 else width - (taken.map List.length).sum) :: drest)
    else (dropTrailingWs taken, d :: drest)

/-- One body of the outer `_wrap_chunks` loop after the leading-whitespace
drop: the greedy take, then `_handle_long_word`, then the
trailing-whitespace drop. -/
def wrapStep (width : Nat) (chunks : List (List Char)) : List (List Char) × List (List Char) :=
  handleLong width (greedyTake width 0 chunks).1 (greedyTake width 0 chunks).2

/-- The outer loop of `TextWrapper._wrap_chunks`.  `emptySoFar` records
`lines == []` (the leading-whitespace chunk of a line is dropped only once
some line exists); a line is emitted only when the piece list is non-empty.
The fuel argument only bounds the iteration count. -/
def wrapChunksLoop (width : Nat) : Nat → List (List Char) → Bool → List (List Char)
  | 0, _, _ => []
  | _ + 1, [], _ => []
  | fuel + 1, c :: rest, emptySoFar =>
    let chunks1 := if !emptySoFar && allSpaceChunk c then rest else c :: rest
    let p := wrapStep width chunks1
    if p.1.isEmpty then wrapChunksLoop width fuel p.2 emptySoFar
    else p.1.flatten :: wrapChunksLoop width fuel p.2 false

/-- Termination measure of the wrapping loop: every iteration strictly
decreases it (`wrapStep_drop_measure`), so a fuel exceeding it is never
exhausted (`wrapChunksLoop_fuel_stable`). -/
def chunksMeasure (cs : List (List Char)) : Nat :=
  2 * (cs.map List.length).sum + cs.length

/-- `textwrap.wrap(text, width)` with the default options: munge, split into
chunks, run the wrapping loop.  The initial fuel strictly dominates the
loop's termination measure, so the fuel-exhaustion branch is never taken
(`wrapChunks_fuel_sufficient`). -/
def wrapChunks (text : List Char) (width : Nat) : List (List Char) :=
  let cs := wordSplit (mungeWhitespace text)
  wrapChunksLoop width (chunksMeasure cs + 1) cs true

/-- `'\n'.join` at the character level. -/
def joinNlChars : List (List Char) → List Char
  | [] => []
  | [l] => l
  | l :: ls => l ++ '\n' :: joinNlChars ls

/-- `str.split('\n')` at the character level (always at least one piece). -/
def splitNlChars : List Char → List (List Char)
  | [] => [[]]
  | c :: rest =>
    if c = '\n' then [] :: splitNlChars rest
    else
      match splitNlChars rest with
      | [] => [[c]]
      | l :: ls => (c :: l) :: ls

/-- `textwrap.fill(text, width) = '\n'.join(wrap(text, width))`. -/
def fill (text : List Char) (width : Nat) : List Char :=
  joinNlChars (wrapChunks text width)

/-! ## Python string helpers at the `String` boundary -/

/-- `s.split('\n')`. -/
def pySplitNl (s : String) : List String :=
  (splitNlChars s.data).map (fun l => String.mk l)

/-- `'\n'.join(ls)`. -/
def pyJoinNl (ls : List String) : String :=
  String.mk (joinNlChars (ls.map String.data))

/-- Python list indexing `l[i]`: negative indices count from the end;
`none` models an `IndexError`. -/
def pyGet {α : Type} (l : List α) (i : Int) : Option α :=
  if 0 ≤ i then l.get? i.toNat
  else if -i ≤ (l.length : Int) then l.get? (l.length - (-i).toNat) else none

/-! ## Model of `TabNewsAPI` (the Content Client)

The HTTP transport is abstracted: a `Response α` is the observable part of
one `requests` answer — its status code, the optional `message` field of
its JSON body, and the payload of type `α` that `response.json()` parses to
on the successful path.  Each client method checks
`response.status_code != 200` and raises
`Exception(f"API Error ({status_code}): {message}")` exactly as in the
source, with `message` defaulting to `"Unknown error"`. -/

/-- One content item, as the dictionaries the API returns (`body` is only
meaningful on a full `get_content` fetch). -/
structure ContentItem where
  title : String
  owner_username : String
  slug : String
  created_at : String
  body : String
deriving DecidableEq

/-- One comment dictionary, as returned by `get_comments`. -/
structure Comment where
  owner_username : String
  created_at : String
  body : String
deriving DecidableEq

/-- The observable part of one HTTP response: status code, the `message`
field of the JSON body when present, and the payload the body parses to. -/
structure Response (α : Type) where
  status_code : Nat
  message : Option String
  body : α
deriving DecidableEq

/-- `TabNewsAPI.get_contents`, applied to the response of
`GET /contents?page&per_page&strategy`. -/
def get_contents (response : Response (List ContentItem)) : Except String (List ContentItem) :=
  if response.status_code ≠ 200 then
    Except.error ("API Error (" ++ toString response.status_code ++ "): " ++
      response.message.getD "Unknown error")
  else Except.ok response.body

/-- `TabNewsAPI.get_user_contents`, applied to the response of
`GET /contents/{username}?page&per_page&strategy`. -/
def get_user_contents (response : Response (List ContentItem)) : Except String (List ContentItem) :=
  if response.status_code ≠ 200 then
    Except.error ("API Error (" ++ toString response.status_code ++ "): " ++
      response.message.getD "Unknown error")
  else Except.ok response.body

/-- `TabNewsAPI.get_content`, applied to the response of
`GET /contents/{username}/{slug}`. -/
def get_content (response : Response ContentItem) : Except String ContentItem :=
  if response.status_code ≠ 200 then
    Except.error ("API Error (" ++ toString response.status_code ++ "): " ++
      response.message.getD "Unknown error")
  else Except.ok response.body

/-- `TabNewsAPI.get_comments`, applied to the response of
`GET /contents/{username}/{slug}/children`. -/
def get_comments (response : Response (List Comment)) : Except String (List Comment) :=
  if response.status_code ≠ 200 then
    Except.error ("API Error (" ++ toString response.status_code ++ "): " ++
      response.message.getD "Unknown error")
  else Except.ok response.body

/-! ## Model of `TabNewsUI` (the View Controller) -/

/-- The mutable state of the single `TabNewsUI` instance.  The three
`*_text` fields are the `.text` of the three `FormattedTextControl` display
buffers.  `content_scroll_position` and `comments` are set in `__init__`
and never used afterwards; they are kept for fidelity. -/
structure UIState where
  current_page : Int
  current_strategy : String
  selected_index : Int
  contents : List ContentItem
  current_content : Option ContentItem
  view_mode : String
  content_scroll_position : Int
  comments : List Comment
  terminal_width : Nat
  terminal_height : Nat
  content_pages : List String
  current_content_page : Int
  feed_text : String
  content_text : String
  comments_text : String
deriving DecidableEq

/-- The state built by `TabNewsUI.__init__`. -/
def initState : UIState where
  current_page := 1
  current_strategy := "relevant"
  selected_index := 0
  contents := []
  current_content := none
  view_mode := "feed"
  content_scroll_position := 0
  comments := []
  terminal_width := 80
  terminal_height := 24
  content_pages := []
  current_content_page := 0
  feed_text := ""
  content_text := ""
  comments_text := ""

/-- The network's answers at the instant one handler runs: what each
`TabNewsAPI` call would receive for given arguments.  `contentsResp` takes
page, per_page and strategy; `contentResp` and `commentsResp` take username
and slug. -/
structure TabNewsAPIOracle where
  contentsResp : Int → Nat → String → Response (List ContentItem)
  contentResp : String → String → Response ContentItem
  commentsResp : String → String → Response (List Comment)

/-- `TabNewsUI.wrap_text(text, width=80)`: `textwrap.fill`. -/
def wrap_text (text : String) (width : Nat := 80) : String :=
  String.mk (fill text.data width)

/-- The accumulation loop of `TabNewsUI.split_into_pages`: flush the current
page when it has reached `height` lines before adding the next line; keep
the final partial page when non-empty. -/
def pageLoop (height : Nat) : List String → List String → Nat → List (List String)
  | [], cur, _ => if cur.isEmpty then [] else [cur]
  | l :: rest, cur, curH =>
    if height ≤ curH then cur :: pageLoop height rest [l] 1
    else pageLoop height rest (cur ++ [l]) (curH + 1)

/-- `TabNewsUI.split_into_pages(text, width=80, height=20)`: wrap, split
into lines, accumulate into pages of at most `height` lines, join each page
with newlines. -/
def split_into_pages (text : String) (width : Nat := 80) (height : Nat := 20) : List String :=
  let wrapped_text := wrap_text text width
  let lines := pySplitNl wrapped_text
  (pageLoop height lines [] 0).map pyJoinNl

/-- `"─" * n`, the separator filler. -/
def sepDashes (n : Nat) : String := String.mk (List.replicate n '─')

/-- `TabNewsUI.update_feed`: rebuild the feed buffer from a fresh
`get_contents` call; on any exception reset `contents` to `[]` and show the
formatted error block.  The content and comments buffers are cleared in
both cases. -/
def update_feed (api : TabNewsAPIOracle) (s : UIState) : UIState :=
  let header : List String := ["[page]Page " ++ toString s.current_page ++ "[/page]", ""]
  match get_contents (api.contentsResp s.current_page 10 s.current_strategy) with
  | Except.ok cs =>
    let rows := cs.enum.flatMap (fun ic =>
      let mark := if (ic.1 : Int) = s.selected_index then "→ " else "  "
      [mark ++ wrap_text ic.2.title (s.terminal_width - 4),
       "    by " ++ ic.2.owner_username,
       ""])
    { s with contents := cs,
             feed_text := pyJoinNl (header ++ rows),
             content_text := "",
             comments_text := "" }
  | Except.error e =>
    { s with contents := [],
             feed_text := pyJoinNl (header ++
               ["[title]Error fetching content[/title]",
                "",
                wrap_text e (s.terminal_width - 4),
                "",
                "Try again later or change page."]),
             content_text := "",
             comments_text := "" }

/-- `TabNewsUI.prepare_content_pages`: build the page list for the open
article (no-op when no article is open). -/
def prepare_content_pages (s : UIState) : UIState :=
  match s.current_content with
  | none => s
  | some content =>
    let title := wrap_text content.title (s.terminal_width - 4)
    let body_pages := split_into_pages content.body (s.terminal_width - 4) (s.terminal_height - 6)
    let pages := body_pages.enum.map (fun ip =>
      pyJoinNl
        ["[title]" ++ title ++ "[/title]",
         "[author]by " ++ content.owner_username ++ "[/author] | [date]" ++
           content.created_at ++ "[/date]",
         "",
         "[separator]" ++ sepDashes (s.terminal_width - 4) ++ "[/separator]",
         "",
         ip.2,
         "",
         "[page_number]Page " ++ toString (ip.1 + 1) ++ " of " ++
           toString body_pages.length ++ "[/page_number]"])
    { s with content_pages := pages }

/-- `TabNewsUI.update_content_view`: early return when there are no pages,
otherwise display `content_pages[current_content_page]` and clear the
comments buffer.  An out-of-range index is Python's uncaught `IndexError`. -/
def update_content_view (s : UIState) : Except String UIState :=
  if s.content_pages.isEmpty then Except.ok s
  else
    match pyGet s.content_pages s.current_content_page with
    | none => Except.error "IndexError"
    | some page => Except.ok { s with content_text := page, comments_text := "" }

/-- `TabNewsUI.show_content`: switch to the content view at page 0, fetch
the full article and build its pages; the `except` clause (which in the
source also guards `prepare_content_pages`/`update_content_view`) replaces
the page list with a single formatted error block. -/
def show_content (api : TabNewsAPIOracle) (s0 : UIState) (content : ContentItem) :
    Except String UIState :=
  let s := { s0 with view_mode := "content", current_content_page := 0 }
  match get_content (api.contentResp content.owner_username content.slug) with
  | Except.ok full_content =>
    let s1 := { s with current_content := some full_content }
    let s2 := prepare_content_pages s1
    match update_content_view s2 with
    | Except.ok s3 => Except.ok s3
    | Except.error e =>
      update_content_view
        { s2 with content_pages :=
            [pyJoinNl
              ["[title]Error loading content[/title]",
               "",
               wrap_text e (s2.terminal_width - 4),
               "",
               "Press Esc to go back to the feed."]] }
  | Except.error e =>
    update_content_view
      { s with content_pages :=
          [pyJoinNl
            ["[title]Error loading content[/title]",
             "",
             wrap_text e (s.terminal_width - 4),
             "",
             "Press Esc to go back to the feed."]] }

/-- `TabNewsUI.show_comments`: no-op without an open article; otherwise
switch to the comments view (before the fetch, as in the source), rebuild
the comments buffer from `get_comments` or from the formatted error block,
and clear the content buffer. -/
def show_comments (api : TabNewsAPIOracle) (s0 : UIState) : UIState :=
  match s0.current_content with
  | none => s0
  | some cur =>
    let s := { s0 with view_mode := "comments" }
    match get_comments (api.commentsResp cur.owner_username cur.slug) with
    | Except.ok cs =>
      let rows := cs.flatMap (fun c =>
        ["[author]" ++ c.owner_username ++ "[/author] | [date]" ++ c.created_at ++ "[/date]",
         "",
         wrap_text c.body (s.terminal_width - 4),
         "",
         "[separator]" ++ sepDashes (s.terminal_width - 4) ++ "[/separator]",
         ""])
      { s with comments_text := pyJoinNl rows, content_text := "" }
    | Except.error e =>
      let errRows := ["[title]Error loading comments[/title]",
                      "",
                      wrap_text e (s.terminal_width - 4),
                      "",
                      "Press Esc to go back to the content."]
      { s with comments_text := pyJoinNl errRows, content_text := "" }

/-- The keys bound in `TabNewsUI.setup_ui` (the quit key only exits the
application and is not modelled). -/
inductive Key where
  | up
  | down
  | left
  | right
  | enter
  | escape
  | c
deriving DecidableEq

/-- One key event, as dispatched by the handlers registered in
`TabNewsUI.setup_ui`.  `Except.error "IndexError"` is an uncaught Python
`IndexError` escaping the handler. -/
def handleKey (api : TabNewsAPIOracle) : Key → UIState → Except String UIState
  | Key.up, s =>
    if s.view_mode = "feed" then
      Except.ok (update_feed api { s with selected_index := max 0 (s.selected_index - 1) })
    else if s.view_mode = "content" then
      update_content_view { s with current_content_page := max 0 (s.current_content_page - 1) }
    else Except.ok s
  | Key.down, s =>
    if s.view_mode = "feed" then
      Except.ok (update_feed api
        { s with selected_index := min ((s.contents.length : Int) - 1) (s.selected_index + 1) })
    else if s.view_mode = "content" then
      update_content_view
        { s with current_content_page :=
            (min ((s.content_pages.length : Int) - 1) (s.current_content_page + 1)) }
    else Except.ok s
  | Key.left, s =>
    if s.view_mode = "feed" then
      if 1 < s.current_page then
        Except.ok (update_feed api
          { s with current_page := s.current_page - 1, selected_index := 0 })
      else Except.ok s
    else Except.ok s
  | Key.right, s =>
    if s.view_mode = "feed" then
      Except.ok (update_feed api
        { s with current_page := s.current_page + 1, selected_index := 0 })
    else Except.ok s
  | Key.enter, s =>
    if s.view_mode = "feed" ∧ s.contents ≠ [] then
      match pyGet s.contents s.selected_index with
      | none => Except.error "IndexError"
      | some content => show_content api s content
    else if s.view_mode = "content" then Except.ok (show_comments api s)
    else Except.ok s
  | Key.escape, s =>
    if s.view_mode = "content" then
      Except.ok (update_feed api { s with view_mode := "feed" })
    else if s.view_mode = "comments" then
      update_content_view { s with view_mode := "content" }
    else Except.ok s
  | Key.c, s =>
    if s.view_mode = "content" then Except.ok (show_comments api s)
    else Except.ok s

/-- Project the state out of a handler result, with a default for an
uncaught exception. -/
def exGetD (e : Except String UIState) (d : UIState) : UIState :=
  match e with
  | Except.ok s => s
  | Except.error _ => d

/-! ## Concrete fixtures: items, oracles and event traces used by the
concrete theorems below -/

/-- A feed item. -/
def itemA : ContentItem := ⟨"t1", "u1", "s1", "d1", "b1"⟩

/-- Another feed item. -/
def itemB : ContentItem := ⟨"t2", "u2", "s2", "d2", "b2"⟩

/-- A healthy server whose feed page holds the two items. -/
def apiOk2 : TabNewsAPIOracle :=
  ⟨fun _ _ _ => ⟨200, none, [itemA, itemB]⟩,
   fun _ _ => ⟨200, none, itemA⟩,
   fun _ _ => ⟨200, none, []⟩⟩

/-- The same server at a later instant: the feed has shrunk to one item. -/
def apiOk1 : TabNewsAPIOracle :=
  ⟨fun _ _ _ => ⟨200, none, [itemA]⟩,
   fun _ _ => ⟨200, none, itemA⟩,
   fun _ _ => ⟨200, none, []⟩⟩

/-- A server answering the feed request with HTTP 500 and body
`{"message": "boom"}`. -/
def apiErr500 : TabNewsAPIOracle :=
  ⟨fun _ _ _ => ⟨500, some "boom", []⟩,
   fun _ _ => ⟨200, none, itemA⟩,
   fun _ _ => ⟨200, none, []⟩⟩

/-- `TabNewsUI.run` starts with `update_feed`; the feed has two items. -/
def trace0 : UIState := update_feed apiOk2 initState

/-- Pressing down moves the selection to index 1 (feed still two items). -/
def trace1 : UIState := exGetD (handleKey apiOk2 Key.down trace0) trace0

/-- Pressing down again while the server now returns one item: the index is
clamped against the old two-item list, then the refetch shrinks the list. -/
def trace2 : UIState := exGetD (handleKey apiOk1 Key.down trace1) trace1

/-- Feed state after `update_feed` against the one-item server. -/
def stateFeed1 : UIState := update_feed apiOk1 initState

/-- State after opening the selected article from `stateFeed1`. -/
def stateContent1 : UIState := exGetD (handleKey apiOk1 Key.enter stateFeed1) stateFeed1

/-- A concrete comments-view state with two prepared article pages, the
second one current. -/
def stateComments : UIState :=
  { initState with
      view_mode := "comments",
      current_content := some itemA,
      content_pages := ["A", "B"],
      current_content_page := 1,
      comments_text := "some comments" }

/-! ## Lemmas: newline splitting and joining -/

theorem splitNlChars_ne_nil (l : List Char) : splitNlChars l ≠ [] := by
  induction l with
  | nil => simp [splitNlChars]
  | cons c rest ih =>
    simp only [splitNlChars]
    split
    · simp
    · cases h : splitNlChars rest with
      | nil => simp
      | cons a as => simp

theorem mem_splitNlChars_no_nl (l : List Char) :
    ∀ p ∈ splitNlChars l, '\n' ∉ p := by
  induction l with
  | nil => simp [splitNlChars]
  | cons c rest ih =>
    intro p hp
    simp only [splitNlChars] at hp
    by_cases hc : c = '\n'
    · rw [if_pos hc] at hp
      rcases List.mem_cons.mp hp with h | h
      · simp [h]
      · exact ih p h
    · rw [if_neg hc] at hp
      cases h : splitNlChars rest with
      | nil => exact absurd h (splitNlChars_ne_nil rest)
      | cons a as =>
        rw [h] at hp
        rcases List.mem_cons.mp hp with h1 | h1
        · subst h1
          intro hmem
          rcases List.mem_cons.mp hmem with h2 | h2
          · exact hc h2.symm
          · exact ih a (h ▸ List.mem_cons_self a as) h2
        · exact ih p (h ▸ List.mem_cons_of_mem a h1)

theorem splitNlChars_of_no_nl (l : List Char) (h : '\n' ∉ l) :
    splitNlChars l = [l] := by
  induction l with
  | nil => simp [splitNlChars]
  | cons c rest ih =>
    simp only [List.mem_cons, not_or] at h
    have hc : ¬ c = '\n' := fun hh => h.1 hh.symm
    rw [splitNlChars, if_neg hc, ih h.2]

theorem splitNlChars_append_nl (l t : List Char) (h : '\n' ∉ l) :
    splitNlChars (l ++ '\n' :: t) = l :: splitNlChars t := by
  induction l with
  | nil => simp [splitNlChars]
  | cons c rest ih =>
    simp only [List.mem_cons, not_or] at h
    have hc : ¬ c = '\n' := fun hh => h.1 hh.symm
    rw [List.cons_append, splitNlChars, if_neg hc, ih h.2]

theorem splitNl_joinNl (L : List (List Char)) (hne : L ≠ [])
    (hnl : ∀ l ∈ L, '\n' ∉ l) : splitNlChars (joinNlChars L) = L := by
  induction L with
  | nil => exact absurd rfl hne
  | cons l ls ih =>
    cases ls with
    | nil =>
      simp only [joinNlChars]
      exact splitNlChars_of_no_nl l (hnl l (List.mem_cons_self l []))
    | cons l2 ls2 =>
      have hjoin : joinNlChars (l :: l2 :: ls2) = l ++ '\n' :: joinNlChars (l2 :: ls2) := rfl
      rw [hjoin, splitNlChars_append_nl l _ (hnl l (List.mem_cons_self l _)),
        ih (by simp) (fun x hx => hnl x (List.mem_cons_of_mem l hx))]

theorem string_mk_data (s : String) : String.mk s.data = s := rfl

theorem pySplitNl_ne_nil (s : String) : pySplitNl s ≠ [] := by
  simp only [pySplitNl, ne_eq, List.map_eq_nil_iff]
  exact splitNlChars_ne_nil s.data

theorem mem_pySplitNl_no_nl (s : String) :
    ∀ x ∈ pySplitNl s, '\n' ∉ x.data := by
  intro x hx
  simp only [pySplitNl, List.mem_map] at hx
  obtain ⟨l, hl, rfl⟩ := hx
  exact mem_splitNlChars_no_nl s.data l hl

theorem pySplitNl_pyJoinNl (P : List String) (hne : P ≠ [])
    (hnl : ∀ p ∈ P, '\n' ∉ p.data) : pySplitNl (pyJoinNl P) = P := by
  simp only [pySplitNl, pyJoinNl]
  rw [splitNl_joinNl (P.map String.data) (by simpa using hne)
    (by intro l hl
        simp only [List.mem_map] at hl
        obtain ⟨p, hp, rfl⟩ := hl
        exact hnl p hp)]
  simp only [List.map_map]
  exact List.map_congr_left (fun p _ => rfl) |>.trans (List.map_id P)

/-! ## Lemmas: the pagination loop -/

theorem pageLoop_flatten (h : Nat) (L : List String) :
    ∀ cur curH, (pageLoop h L cur curH).flatten = cur ++ L := by
  induction L with
  | nil =>
    intro cur curH
    simp only [pageLoop]
    cases cur with
    | nil => simp
    | cons a as => simp
  | cons l rest ih =>
    intro cur curH
    simp only [pageLoop]
    split
    · simp [ih]
    · simp [ih]

theorem pageLoop_ne_nil (h : Nat) (L : List String) :
    ∀ cur curH, cur ≠ [] ∨ L ≠ [] → pageLoop h L cur curH ≠ [] := by
  induction L with
  | nil =>
    intro cur curH hor
    rcases hor with hc | hL
    · simp [pageLoop, List.isEmpty_iff, hc]
    · exact absurd rfl hL
  | cons l rest ih =>
    intro cur curH _
    simp only [pageLoop]
    split
    · simp
    · exact ih (cur ++ [l]) (curH + 1) (Or.inl (by simp))

theorem pageLoop_mem_ne_nil (h : Nat) (h1 : 1 ≤ h) (L : List String) :
    ∀ cur curH, curH = cur.length → curH ≤ h →
      ∀ p ∈ pageLoop h L cur curH, p ≠ [] := by
  induction L with
  | nil =>
    intro cur curH _ _ p hp
    simp only [pageLoop] at hp
    cases cur with
    | nil => simp at hp
    | cons a as =>
      simp only [List.isEmpty_cons, Bool.false_eq_true, if_false,
        List.mem_singleton] at hp
      simp [hp]
  | cons l rest ih =>
    intro cur curH hcur hle p hp
    simp only [pageLoop] at hp
    by_cases hflush : h ≤ curH
    · rw [if_pos hflush] at hp
      rcases List.mem_cons.mp hp with h2 | h2
      · subst h2
        intro hnil
        rw [hnil] at hcur
        simp only [List.length_nil] at hcur
        omega
      · exact ih [l] 1 (by simp) h1 p h2
    · rw [if_neg hflush] at hp
      exact ih (cur ++ [l]) (curH + 1) (by simp [hcur]) (by omega) p hp

theorem pageLoop_mem_mem (h : Nat) (L : List String) :
    ∀ cur curH, ∀ p ∈ pageLoop h L cur curH, ∀ x ∈ p, x ∈ cur ∨ x ∈ L := by
  induction L with
  | nil =>
    intro cur curH p hp x hx
    simp only [pageLoop] at hp
    split at hp
    · simp at hp
    · simp only [List.mem_singleton] at hp
      exact Or.inl (hp ▸ hx)
  | cons l rest ih =>
    intro cur curH p hp x hx
    simp only [pageLoop] at hp
    split at hp
    · rcases List.mem_cons.mp hp with h2 | h2
      · exact Or.inl (h2 ▸ hx)
      · rcases ih [l] 1 p h2 x hx with h3 | h3
        · simp only [List.mem_singleton] at h3
          exact Or.inr (by simp [h3])
        · exact Or.inr (List.mem_cons_of_mem l h3)
    · rcases ih (cur ++ [l]) (curH + 1) p hp x hx with h3 | h3
      · rcases List.mem_append.mp h3 with h4 | h4
        · exact Or.inl h4
        · simp only [List.mem_singleton] at h4
          exact Or.inr (by simp [h4])
      · exact Or.inr (List.mem_cons_of_mem l h3)

theorem getLast?_cons_ne {α : Type} (a : α) (l : List α) (h : l ≠ []) :
    (a :: l).getLast? = l.getLast? := by
  cases l with
  | nil => exact absurd rfl h
  | cons b bs => rfl

theorem pageLoop_length (h : Nat) (h1 : 1 ≤ h) (L : List String) :
    ∀ cur curH, curH = cur.length → curH ≤ h →
      (pageLoop h L cur curH).length = (cur.length + L.length + h - 1) / h := by
  induction L with
  | nil =>
    intro cur curH hcur hle
    simp only [pageLoop]
    cases cur with
    | nil =>
      simp only [List.isEmpty_nil, if_true, List.length_nil, Nat.add_zero, Nat.zero_add]
      rw [Nat.div_eq_of_lt (by omega)]
    | cons a as =>
      simp only [List.isEmpty_cons, Bool.false_eq_true, if_false, List.length_nil,
        List.length_cons]
      simp only [List.length_cons] at hcur
      have e1 : as.length + 1 + 0 + h - 1 = as.length + h := by omega
      rw [e1, Nat.add_div_right _ (by omega), Nat.div_eq_of_lt (by omega)]
  | cons l rest ih =>
    intro cur curH hcur hle
    simp only [pageLoop]
    by_cases hflush : h ≤ curH
    · rw [if_pos hflush]
      have hcl : cur.length = h := by omega
      rw [List.length_cons, ih [l] 1 (by simp) h1]
      simp only [List.length_singleton, List.length_cons]
      have e1 : cur.length + (rest.length + 1) + h - 1 = (1 + rest.length + h - 1) + h := by
        omega
      rw [e1, Nat.add_div_right _ (by omega)]
      simp
    · rw [if_neg hflush]
      rw [ih (cur ++ [l]) (curH + 1) (by simp [hcur]) (by omega)]
      congr 1
      simp only [List.length_append, List.length_singleton, List.length_cons,
        List.length_nil]
      omega

theorem pageLoop_sizes (h : Nat) (h1 : 1 ≤ h) (L : List String) :
    ∀ cur curH, curH = cur.length → curH ≤ h →
      (∀ p ∈ (pageLoop h L cur curH).dropLast, p.length = h) ∧
      (∀ p, (pageLoop h L cur curH).getLast? = some p →
        1 ≤ p.length ∧ p.length ≤ h) := by
  induction L with
  | nil =>
    intro cur curH hcur hle
    simp only [pageLoop]
    cases cur with
    | nil => simp
    | cons a as =>
      simp only [List.isEmpty_cons, Bool.false_eq_true, if_false]
      constructor
      · intro p hp
        simp at hp
      · intro p hp
        simp only [List.getLast?_singleton, Option.some_inj] at hp
        subst hp
        simp only [List.length_cons] at hcur
        simp only [List.length_cons]
        omega
  | cons l rest ih =>
    intro cur curH hcur hle
    simp only [pageLoop]
    by_cases hflush : h ≤ curH
    · rw [if_pos hflush]
      have hcl : cur.length = h := by omega
      have hne : pageLoop h rest [l] 1 ≠ [] :=
        pageLoop_ne_nil h rest [l] 1 (Or.inl (by simp))
      obtain ⟨ih1, ih2⟩ := ih [l] 1 (by simp) h1
      constructor
      · intro p hp
        rw [List.dropLast_cons_of_ne_nil hne] at hp
        rcases List.mem_cons.mp hp with h2 | h2
        · exact h2 ▸ hcl
        · exact ih1 p h2
      · intro p hp
        rw [getLast?_cons_ne cur _ hne] at hp
        exact ih2 p hp
    · rw [if_neg hflush]
      exact ih (cur ++ [l]) (curH + 1) (by simp [hcur]) (by omega)

/-! ## Lemmas: the wrapping loop -/

theorem greedyTake_append (w : Nat) (L : List (List Char)) :
    ∀ curLen, (greedyTake w curLen L).1 ++ (greedyTake w curLen L).2 = L := by
  induction L with
  | nil => intro curLen; simp [greedyTake]
  | cons c rest ih =>
    intro curLen
    simp only [greedyTake]
    split
    · simp [ih]
    · simp

theorem greedyTake_len (w : Nat) (L : List (List Char)) :
    ∀ curLen, curLen ≤ w →
      curLen + (((greedyTake w curLen L).1).map List.length).sum ≤ w := by
  induction L with
  | nil => intro curLen hle; simpa [greedyTake]
  | cons c rest ih =>
    intro curLen hle
    simp only [greedyTake]
    split
    · rename_i hfit
      have := ih (curLen + c.length) hfit
      simp only [List.map_cons, List.sum_cons]
      omega
    · simpa

theorem sum_map_dropLast_le (f : List Char → Nat) (P : List (List Char)) :
    ((P.dropLast).map f).sum ≤ (P.map f).sum := by
  induction P with
  | nil => simp
  | cons a rest ih =>
    cases rest with
    | nil => simp
    | cons b bs =>
      simp only [List.dropLast_cons₂, List.map_cons, List.sum_cons]
      have := ih
      simp only [List.map_cons, List.sum_cons] at this
      omega

theorem dropTrailingWs_eq_or (P : List (List Char)) :
    dropTrailingWs P = P ∨ dropTrailingWs P = P.dropLast := by
  unfold dropTrailingWs
  cases P.getLast? with
  | none => exact Or.inl rfl
  | some lst =>
    dsimp only
    by_cases h : allSpaceChunk lst = true
    · rw [if_pos h]
      exact Or.inr rfl
    · rw [if_neg h]
      exact Or.inl rfl

theorem dropTrailingWs_sum_le (P : List (List Char)) :
    (((dropTrailingWs P).map List.length).sum) ≤ ((P.map List.length).sum) := by
  rcases dropTrailingWs_eq_or P with h | h <;> rw [h]
  exact sum_map_dropLast_le List.length P

theorem dropTrailingWs_subset (P : List (List Char)) :
    ∀ x ∈ dropTrailingWs P, x ∈ P := by
  rcases dropTrailingWs_eq_or P with h | h <;> rw [h]
  · exact fun x hx => hx
  · exact fun x hx => List.dropLast_subset P hx

theorem handleLong_line_len (w : Nat) (taken rem : List (List Char))
    (ht : ((taken.map List.length).sum) ≤ w) :
    (((handleLong w taken rem).1).map List.length).sum ≤ max w 1 := by
  cases rem with
  | nil =>
    simp only [handleLong]
    exact le_trans (dropTrailingWs_sum_le _) (le_trans ht (le_max_left w 1))
  | cons d drest =>
    simp only [handleLong]
    by_cases hlen : w < d.length
    · rw [if_pos hlen]
      refine le_trans (dropTrailingWs_sum_le _) ?_
      simp only [List.map_append, List.sum_append, List.map_cons, List.map_nil,
        List.sum_cons, List.sum_nil, List.length_take]
      by_cases hw : w < 1
      · rw [if_pos hw]
        have hw0 : w = 0 := by omega
        subst hw0
        have hs0 : ((taken.map List.length).sum) = 0 := by omega
        have hmin := Nat.min_le_left 1 d.length
        simp only [hs0]
        omega
      · rw [if_neg hw]
        have hmin := Nat.min_le_left (w - (taken.map List.length).sum) d.length
        omega
    · rw [if_neg hlen]
      exact le_trans (dropTrailingWs_sum_le _) (le_trans ht (le_max_left w 1))

theorem wrapStep_line_len (w : Nat) (chunks : List (List Char)) :
    (((wrapStep w chunks).1).map List.length).sum ≤ max w 1 := by
  have hg := greedyTake_len w chunks 0 (Nat.zero_le w)
  simp only [Nat.zero_add] at hg
  exact handleLong_line_len w _ _ hg

theorem wrapChunksLoop_line_len (w : Nat) :
    ∀ (fuel : Nat) (chunks : List (List Char)) (b : Bool),
      ∀ line ∈ wrapChunksLoop w fuel chunks b, line.length ≤ max w 1 := by
  intro fuel
  induction fuel with
  | zero => intro chunks b line hline; simp [wrapChunksLoop] at hline
  | succ n ih =>
    intro chunks b line hline
    cases chunks with
    | nil => simp [wrapChunksLoop] at hline
    | cons c rest =>
      simp only [wrapChunksLoop] at hline
      by_cases hemp :
          ((wrapStep w (if !b && allSpaceChunk c then rest else c :: rest)).1).isEmpty = true
      · rw [if_pos hemp] at hline
        exact ih _ _ line hline
      · rw [if_neg hemp] at hline
        rcases List.mem_cons.mp hline with h2 | h2
        · subst h2
          rw [List.length_flatten]
          exact wrapStep_line_len w _
        · exact ih _ _ line h2

theorem wordSplitAux_chars (P : Char → Prop) :
    ∀ (input cur : List Char), (∀ c ∈ input, P c) → (∀ c ∈ cur, P c) →
      ∀ ch ∈ wordSplitAux input cur, ∀ c ∈ ch, P c := by
  intro input
  induction input with
  | nil =>
    intro cur _ hcur ch hch c hc
    simp only [wordSplitAux] at hch
    by_cases hemp : cur.isEmpty = true
    · rw [if_pos hemp] at hch
      simp at hch
    · rw [if_neg hemp] at hch
      simp only [List.mem_singleton] at hch
      subst hch
      exact hcur c (List.mem_reverse.mp hc)
  | cons a rest ih =>
    intro cur hin hcur ch hch c hc
    have hina : P a := hin a (List.mem_cons_self a rest)
    have hinr : ∀ x ∈ rest, P x := fun x hx => hin x (List.mem_cons_of_mem a hx)
    have hsing : ∀ x ∈ [a], P x := by
      intro x hx
      simp only [List.mem_singleton] at hx
      exact hx ▸ hina
    cases cur with
    | nil =>
      simp only [wordSplitAux] at hch
      exact ih [a] hinr hsing ch hch c hc
    | cons d ds =>
      simp only [wordSplitAux] at hch
      by_cases hcl : ((a == ' ') == (d == ' ')) = true
      · rw [if_pos hcl] at hch
        exact ih (a :: d :: ds) hinr
          (by intro x hx
              rcases List.mem_cons.mp hx with h2 | h2
              · exact h2 ▸ hina
              · exact hcur x h2) ch hch c hc
      · rw [if_neg hcl] at hch
        rcases List.mem_cons.mp hch with h2 | h2
        · exact hcur c (List.mem_reverse.mp (h2 ▸ hc))
        · exact ih [a] hinr hsing ch h2 c hc

theorem wordSplit_chars (P : Char → Prop) (t : List Char) (h : ∀ c ∈ t, P c) :
    ∀ ch ∈ wordSplit t, ∀ c ∈ ch, P c :=
  wordSplitAux_chars P t [] h (by simp)

theorem handleLong_chars (P : Char → Prop) (w : Nat) (taken rem : List (List Char))
    (ht : ∀ pc ∈ taken, ∀ c ∈ pc, P c) (hr : ∀ ch ∈ rem, ∀ c ∈ ch, P c) :
    (∀ pc ∈ (handleLong w taken rem).1, ∀ c ∈ pc, P c) ∧
    (∀ ch ∈ (handleLong w taken rem).2, ∀ c ∈ ch, P c) := by
  cases rem with
  | nil =>
    simp only [handleLong]
    exact ⟨fun pc hpc => ht pc (dropTrailingWs_subset _ pc hpc), by simp⟩
  | cons d drest =>
    have hd : ∀ c ∈ d, P c := hr d (List.mem_cons_self d drest)
    have hdrest : ∀ ch ∈ drest, ∀ c ∈ ch, P c :=
      fun ch hch => hr ch (List.mem_cons_of_mem d hch)
    simp only [handleLong]
    by_cases hlen : w < d.length
    · rw [if_pos hlen]
      constructor
      · intro pc hpc
        have hpc2 := dropTrailingWs_subset _ pc hpc
        rcases List.mem_append.mp hpc2 with h2 | h2
        · exact ht pc h2
        · simp only [List.mem_singleton] at h2
          subst h2
          intro c hc
          exact hd c (List.take_subset _ _ hc)
      · intro ch hch
        rcases List.mem_cons.mp hch with h2 | h2
        · subst h2
          intro c hc
          exact hd c (List.drop_subset _ _ hc)
        · exact hdrest ch h2
    · rw [if_neg hlen]
      constructor
      · exact fun pc hpc => ht pc (dropTrailingWs_subset _ pc hpc)
      · intro ch hch
        rcases List.mem_cons.mp hch with h2 | h2
        · exact h2 ▸ hd
        · exact hdrest ch h2

theorem wrapStep_chars (P : Char → Prop) (w : Nat) (chunks : List (List Char))
    (h : ∀ ch ∈ chunks, ∀ c ∈ ch, P c) :
    (∀ pc ∈ (wrapStep w chunks).1, ∀ c ∈ pc, P c) ∧
    (∀ ch ∈ (wrapStep w chunks).2, ∀ c ∈ ch, P c) := by
  have happ := greedyTake_append w chunks 0
  have htaken : ∀ pc ∈ (greedyTake w 0 chunks).1, ∀ c ∈ pc, P c := by
    intro pc hpc
    exact h pc (happ ▸ List.mem_append_left _ hpc)
  have hrem : ∀ ch ∈ (greedyTake w 0 chunks).2, ∀ c ∈ ch, P c := by
    intro ch hch
    exact h ch (happ ▸ List.mem_append_right _ hch)
  exact handleLong_chars P w _ _ htaken hrem

theorem wrapChunksLoop_chars (P : Char → Prop) (w : Nat) :
    ∀ (fuel : Nat) (chunks : List (List Char)) (b : Bool),
      (∀ ch ∈ chunks, ∀ c ∈ ch, P c) →
      ∀ line ∈ wrapChunksLoop w fuel chunks b, ∀ c ∈ line, P c := by
  intro fuel
  induction fuel with
  | zero => intro chunks b _ line hline; simp [wrapChunksLoop] at hline
  | succ n ih =>
    intro chunks b hch line hline
    cases chunks with
    | nil => simp [wrapChunksLoop] at hline
    | cons c rest =>
      simp only [wrapChunksLoop] at hline
      have hch1 : ∀ ch ∈ (if !b && allSpaceChunk c then rest else c :: rest),
          ∀ x ∈ ch, P x := by
        by_cases hdrop : (!b && allSpaceChunk c) = true
        · rw [if_pos hdrop]
          exact fun ch h2 => hch ch (List.mem_cons_of_mem c h2)
        · rw [if_neg hdrop]
          exact hch
      obtain ⟨hpieces, hrem⟩ := wrapStep_chars P w _ hch1
      by_cases hemp :
          ((wrapStep w (if !b && allSpaceChunk c then rest else c :: rest)).1).isEmpty = true
      · rw [if_pos hemp] at hline
        exact ih _ _ hrem line hline
      · rw [if_neg hemp] at hline
        rcases List.mem_cons.mp hline with h2 | h2
        · subst h2
          intro x hx
          obtain ⟨pc, hpc, hxpc⟩ := List.mem_flatten.mp hx
          exact hpieces pc hpc x hxpc
        · exact ih _ _ hrem line h2


theorem mungeWhitespace_no_nl (t : List Char) :
    ∀ c ∈ mungeWhitespace t, ¬ c = '\n' := by
  intro c hc
  simp only [mungeWhitespace, List.mem_map] at hc
  obtain ⟨a, _, rfl⟩ := hc
  by_cases ha : isTwWs a
  · simp only [if_pos ha]
    decide
  · simp only [if_neg ha]
    intro he
    subst he
    simp [isTwWs] at ha

theorem wrapChunks_no_nl (t : List Char) (w : Nat) :
    ∀ line ∈ wrapChunks t w, '\n' ∉ line := by
  intro line hline hmem
  exact wrapChunksLoop_chars (fun c => ¬ c = '\n') w _ _ true
    (wordSplit_chars _ _ (mungeWhitespace_no_nl t)) line hline '\n' hmem rfl

/-! ## Lemmas: `expandtabs` and whitespace munging -/

theorem expandtabs_no_tab (cs : List Char) (h : '\t' ∉ cs) :
    ∀ col, expandtabs cs col = cs := by
  induction cs with
  | nil => intro col; rfl
  | cons c rest ih =>
    intro col
    simp only [List.mem_cons, not_or] at h
    have hct : ¬ (c == '\t') = true := by
      simp only [beq_iff_eq]
      exact fun he => h.1 he.symm
    simp only [expandtabs, hct, Bool.false_eq_true, if_false]
    split
    · rw [ih h.2]
    · rw [ih h.2]

theorem dropLast_map_eq {α β : Type} (f : α → β) (l : List α) :
    (l.map f).dropLast = l.dropLast.map f := by
  induction l with
  | nil => simp
  | cons a rest ih =>
    cases rest with
    | nil => simp
    | cons b bs =>
      have hih := ih
      simp only [List.map_cons] at hih ⊢
      rw [List.dropLast_cons₂, List.dropLast_cons₂, hih]
      simp

theorem string_mk_length (l : List Char) : (String.mk l).length = l.length := rfl

theorem mem_of_getLast?_eq {α : Type} (l : List α) (a : α) (h : l.getLast? = some a) :
    a ∈ l := by
  induction l with
  | nil =>
    rw [List.getLast?_nil] at h
    exact absurd h (by simp)
  | cons x xs ih =>
    cases xs with
    | nil =>
      rw [List.getLast?_singleton] at h
      simp only [Option.some_inj] at h
      simp [h]
    | cons y ys =>
      rw [getLast?_cons_ne x (y :: ys) (by simp)] at h
      exact List.mem_cons_of_mem x (ih h)

theorem wrapChunks_lines_of_fill (t : List Char) (w : Nat) :
    pySplitNl (String.mk (fill t w)) =
      if wrapChunks t w = [] then [""] else (wrapChunks t w).map String.mk := by
  by_cases hwc : wrapChunks t w = []
  · rw [if_pos hwc]
    unfold pySplitNl fill
    rw [hwc]
    rfl
  · rw [if_neg hwc]
    unfold pySplitNl fill
    rw [splitNl_joinNl _ hwc (wrapChunks_no_nl t w)]

/-! ## Claim theorems -/

/-- C6, counterexample: the claim asserts that a single unsplittable token
longer than the width passes through to the output unmodified, on its own
over-long line.  For the token `"abcde"` at width 2 the code instead breaks
it into pieces (`break_long_words=True`): no output line is `"abcde"`. -/
theorem c6_long_token_cex :
    pySplitNl (wrap_text "abcde" 2) = ["ab", "cd", "e"] ∧
    "abcde" ∉ pySplitNl (wrap_text "abcde" 2) := by
  constructor
  · rfl
  · decide

/-- C6, amended: for every width `w ≥ 1` and every text, no line produced
by `wrap_text` is longer than `w` characters — with no exception for long
tokens, which are broken at the width rather than passed through. -/
theorem c6_wrap_width_bound (text : String) (w : Nat) (hw : 1 ≤ w) :
    ∀ l ∈ pySplitNl (wrap_text text w), l.length ≤ w := by
  intro l hl
  have hwt : wrap_text text w = String.mk (fill text.data w) := rfl
  rw [hwt, wrapChunks_lines_of_fill text.data w] at hl
  by_cases hwc : wrapChunks text.data w = []
  · rw [if_pos hwc] at hl
    simp only [List.mem_singleton] at hl
    subst hl
    simp [String.length]
  · rw [if_neg hwc] at hl
    obtain ⟨line, hline, rfl⟩ := List.mem_map.mp hl
    rw [string_mk_length]
    have hb : line.length ≤ max w 1 := by
      unfold wrapChunks at hline
      exact wrapChunksLoop_line_len w _ _ true line hline
    rwa [Nat.max_eq_left hw] at hb

/-- C6, witness for the amended theorem at `"hello"`, width 3. -/
theorem c6_wrap_width_bound_witness :
    "hel" ∈ pySplitNl (wrap_text "hello" 3) ∧ ("hel" : String).length ≤ 3 :=
  ⟨by decide, c6_wrap_width_bound "hello" 3 (by decide) "hel" (by decide)⟩

/-- C7, counterexample: the input `"a\n\nb"` contains a blank-line
paragraph break, but the wrapped output is the single line `"a  b"`:
`wrap_text` does not preserve paragraph breaks (`textwrap.fill` replaces
every newline by a space before wrapping). -/
theorem c7_paragraph_cex :
    pySplitNl "a\n\nb" = ["a", "", "b"] ∧
    pySplitNl (wrap_text "a\n\nb" 80) = ["a  b"] := by
  constructor <;> rfl

/-- C7, amended: `wrap_text` treats every newline exactly like a space
(for tab-free text, where tab expansion cannot interact with the newline's
column reset), so paragraph breaks are collapsed, not preserved. -/
theorem c7_newline_as_space (text : String) (w : Nat) (ht : '\t' ∉ text.data) :
    wrap_text text w =
      wrap_text (String.mk (text.data.map (fun c => if c = '\n' then ' ' else c))) w := by
  have hnt : '\t' ∉ text.data.map (fun c => if c = '\n' then ' ' else c) := by
    intro hmem
    obtain ⟨c, hc, he⟩ := List.mem_map.mp hmem
    by_cases hc2 : c = '\n'
    · rw [if_pos hc2] at he
      exact absurd he (by decide)
    · rw [if_neg hc2] at he
      exact ht (he ▸ hc)
  have hm : mungeWhitespace ((String.mk (text.data.map
      (fun c => if c = '\n' then ' ' else c))).data) = mungeWhitespace text.data := by
    unfold mungeWhitespace
    rw [show (String.mk (text.data.map (fun c => if c = '\n' then ' ' else c))).data =
      text.data.map (fun c => if c = '\n' then ' ' else c) from rfl]
    rw [expandtabs_no_tab _ hnt 0, expandtabs_no_tab _ ht 0, List.map_map]
    apply List.map_congr_left
    intro c _
    by_cases hc2 : c = '\n'
    · subst hc2
      rfl
    · simp only [Function.comp_apply, if_neg hc2]
  unfold wrap_text fill wrapChunks
  rw [hm]

/-- C7, witness for the amended theorem at `"a\n\nb"`, width 80: the
paragraph break wraps exactly like two spaces would. -/
theorem c7_newline_as_space_witness :
    '\t' ∉ ("a\n\nb" : String).data ∧ wrap_text "a\n\nb" 80 = wrap_text "a  b" 80 :=
  ⟨by decide, (c7_newline_as_space "a\n\nb" 80 (by decide)).trans (by decide)⟩

/-- C4: for every text and height `h ≥ 1`, `split_into_pages` produces
exactly `⌈n / h⌉ = (n + h - 1) / h` pages, where `n` is the number of lines
of the wrapped text; every page but the last holds exactly `h` lines and
the last between 1 and `h`; the empty body yields exactly one, empty
page. -/
theorem c4_page_partition (text : String) (w h : Nat) (h1 : 1 ≤ h) :
    (split_into_pages text w h).length =
      ((pySplitNl (wrap_text text w)).length + h - 1) / h ∧
    (∀ p ∈ (split_into_pages text w h).dropLast, (pySplitNl p).length = h) ∧
    (∀ p, (split_into_pages text w h).getLast? = some p →
      1 ≤ (pySplitNl p).length ∧ (pySplitNl p).length ≤ h) ∧
    split_into_pages "" w h = [""] := by
  have hsp : split_into_pages text w h =
      (pageLoop h (pySplitNl (wrap_text text w)) [] 0).map pyJoinNl := rfl
  have hround : ∀ q ∈ pageLoop h (pySplitNl (wrap_text text w)) [] 0,
      pySplitNl (pyJoinNl q) = q := by
    intro q hq
    apply pySplitNl_pyJoinNl
    · exact pageLoop_mem_ne_nil h h1 _ [] 0 rfl (by omega) q hq
    · intro x hx
      rcases pageLoop_mem_mem h _ [] 0 q hq x hx with h2 | h2
      · simp at h2
      · exact mem_pySplitNl_no_nl _ x h2
  refine ⟨?_, ?_, ?_, ?_⟩
  · rw [hsp, List.length_map,
      pageLoop_length h h1 (pySplitNl (wrap_text text w)) [] 0 rfl (by omega)]
    simp
  · intro p hp
    rw [hsp, dropLast_map_eq] at hp
    obtain ⟨q, hq, rfl⟩ := List.mem_map.mp hp
    rw [hround q (List.dropLast_subset _ hq)]
    exact (pageLoop_sizes h h1 _ [] 0 rfl (by omega)).1 q hq
  · intro p hp
    rw [hsp, List.getLast?_map] at hp
    cases hq : (pageLoop h (pySplitNl (wrap_text text w)) [] 0).getLast? with
    | none => rw [hq] at hp; simp at hp
    | some q =>
      rw [hq] at hp
      simp only [Option.map_some', Option.some_inj] at hp
      subst hp
      rw [hround q (mem_of_getLast?_eq _ q hq)]
      exact (pageLoop_sizes h h1 _ [] 0 rfl (by omega)).2 q hq
  · have hempty : pySplitNl (wrap_text "" w) = [""] := rfl
    show (pageLoop h (pySplitNl (wrap_text "" w)) [] 0).map pyJoinNl = [""]
    rw [hempty]
    show (pageLoop h [""] [] 0).map pyJoinNl = [""]
    rw [pageLoop]
    rw [if_neg (by omega)]
    rfl

/-- C4, witness at `"hello world"`, width 5, height 2 (wraps to the three
lines `hello`, `worl`, `d`, hence two pages). -/
theorem c4_page_partition_witness :
    (split_into_pages "hello world" 5 2).length =
      ((pySplitNl (wrap_text "hello world" 5)).length + 2 - 1) / 2 ∧
    split_into_pages "" 5 2 = [""] :=
  ⟨(c4_page_partition "hello world" 5 2 (by decide)).1,
   (c4_page_partition "hello world" 5 2 (by decide)).2.2.2⟩

/-- C5: concatenating the lines of all pages produced by
`split_into_pages`, in page order, yields exactly the line sequence of the
wrapped text. -/
theorem c5_pages_roundtrip (text : String) (w h : Nat) (h1 : 1 ≤ h) :
    (split_into_pages text w h).flatMap pySplitNl = pySplitNl (wrap_text text w) := by
  have hsp : split_into_pages text w h =
      (pageLoop h (pySplitNl (wrap_text text w)) [] 0).map pyJoinNl := rfl
  rw [hsp, List.flatMap_def, List.map_map]
  have hcongr : (pageLoop h (pySplitNl (wrap_text text w)) [] 0).map
      (pySplitNl ∘ pyJoinNl) = pageLoop h (pySplitNl (wrap_text text w)) [] 0 := by
    rw [show pageLoop h (pySplitNl (wrap_text text w)) [] 0 =
      (pageLoop h (pySplitNl (wrap_text text w)) [] 0).map id by simp]
    rw [List.map_map]
    apply List.map_congr_left
    intro q hq
    simp only [Function.comp_apply, id_eq]
    apply pySplitNl_pyJoinNl
    · exact pageLoop_mem_ne_nil h h1 _ [] 0 rfl (by omega) q
        (by simpa using hq)
    · intro x hx
      rcases pageLoop_mem_mem h _ [] 0 q (by simpa using hq) x hx with h2 | h2
      · simp at h2
      · exact mem_pySplitNl_no_nl _ x h2
  rw [hcongr, pageLoop_flatten]
  simp

/-- C5, witness at `"hello world"`, width 5, height 2. -/
theorem c5_pages_roundtrip_witness :
    (split_into_pages "hello world" 5 2).flatMap pySplitNl =
      pySplitNl (wrap_text "hello world" 5) :=
  c5_pages_roundtrip "hello world" 5 2 (by decide)

/-! ## Lemmas: the view controller -/

theorem isEmpty_false_of_ne {α : Type} (l : List α) (h : l ≠ []) :
    ¬ (l.isEmpty = true) := by
  cases l with
  | nil => exact absurd rfl h
  | cons a as => simp

theorem pyGet_cons_zero {α : Type} (a : α) (as : List α) : pyGet (a :: as) 0 = some a := rfl

theorem pyGet_some_of_ne_nil {α : Type} (l : List α) (h : l ≠ []) :
    ∃ x, pyGet l 0 = some x := by
  cases l with
  | nil => exact absurd rfl h
  | cons a as => exact ⟨a, rfl⟩

theorem pyGet_none_of_len_le {α : Type} (l : List α) (i : Int) (h0 : 0 ≤ i)
    (h : (l.length : Int) ≤ i) : pyGet l i = none := by
  unfold pyGet
  rw [if_pos h0]
  exact List.get?_eq_none.mpr (by omega)

theorem update_feed_fields (api : TabNewsAPIOracle) (s : UIState) :
    (update_feed api s).selected_index = s.selected_index ∧
    (update_feed api s).view_mode = s.view_mode ∧
    (update_feed api s).current_content_page = s.current_content_page ∧
    (update_feed api s).content_pages = s.content_pages ∧
    (update_feed api s).current_content = s.current_content ∧
    (update_feed api s).content_text = "" ∧
    (update_feed api s).comments_text = "" := by
  unfold update_feed
  cases hg : get_contents (api.contentsResp s.current_page 10 s.current_strategy) <;>
    simp [hg]

theorem update_feed_error (api : TabNewsAPIOracle) (s : UIState) (e : String)
    (h : get_contents (api.contentsResp s.current_page 10 s.current_strategy) =
      Except.error e) :
    update_feed api s =
      { s with contents := [],
               feed_text := pyJoinNl [
                 "[page]Page " ++ toString s.current_page ++ "[/page]",
                 "",
                 "[title]Error fetching content[/title]",
                 "",
                 wrap_text e (s.terminal_width - 4),
                 "",
                 "Try again later or change page."],
               content_text := "",
               comments_text := "" } := by
  unfold update_feed
  rw [h]
  rfl

theorem update_content_view_ok (s s' : UIState) (h : update_content_view s = Except.ok s') :
    (s.content_pages = [] ∧ s' = s) ∨
    (∃ p, pyGet s.content_pages s.current_content_page = some p ∧
      s' = { s with content_text := p, comments_text := "" }) := by
  unfold update_content_view at h
  by_cases hemp : s.content_pages.isEmpty = true
  · rw [if_pos hemp] at h
    simp only [Except.ok.injEq] at h
    exact Or.inl ⟨List.isEmpty_iff.mp hemp, h.symm⟩
  · rw [if_neg hemp] at h
    cases hg : pyGet s.content_pages s.current_content_page with
    | none =>
      rw [hg] at h
      exact absurd h (by simp)
    | some p =>
      rw [hg] at h
      simp only [Except.ok.injEq] at h
      exact Or.inr ⟨p, rfl, h.symm⟩

theorem update_content_view_ne_nil (s : UIState) (hne : s.content_pages ≠ [])
    (h0 : s.current_content_page = 0) :
    ∃ p, pyGet s.content_pages s.current_content_page = some p ∧
      update_content_view s = Except.ok { s with content_text := p, comments_text := "" } := by
  obtain ⟨p, hp⟩ := pyGet_some_of_ne_nil s.content_pages hne
  refine ⟨p, by rw [h0]; exact hp, ?_⟩
  unfold update_content_view
  rw [if_neg (isEmpty_false_of_ne _ hne), h0, hp]

theorem prepare_fields (s : UIState) :
    (prepare_content_pages s).selected_index = s.selected_index ∧
    (prepare_content_pages s).view_mode = s.view_mode ∧
    (prepare_content_pages s).current_content_page = s.current_content_page ∧
    (prepare_content_pages s).contents = s.contents ∧
    (prepare_content_pages s).feed_text = s.feed_text ∧
    (prepare_content_pages s).content_text = s.content_text ∧
    (prepare_content_pages s).comments_text = s.comments_text ∧
    (prepare_content_pages s).current_content = s.current_content := by
  unfold prepare_content_pages
  cases hc : s.current_content <;> simp [hc]

theorem split_into_pages_ne_nil (t : String) (w h : Nat) :
    split_into_pages t w h ≠ [] := by
  have hne := pageLoop_ne_nil h (pySplitNl (wrap_text t w)) [] 0
    (Or.inr (pySplitNl_ne_nil _))
  show (pageLoop h (pySplitNl (wrap_text t w)) [] 0).map pyJoinNl ≠ []
  simpa using hne

theorem prepare_pages_ne_nil (s : UIState) (c : ContentItem)
    (h : s.current_content = some c) :
    (prepare_content_pages s).content_pages ≠ [] := by
  unfold prepare_content_pages
  rw [h]
  simp only [ne_eq, List.map_eq_nil_iff]
  have hne := split_into_pages_ne_nil c.body (s.terminal_width - 4) (s.terminal_height - 6)
  intro henum
  have hlen : (split_into_pages c.body (s.terminal_width - 4)
      (s.terminal_height - 6)).enum.length = 0 := by rw [henum]; rfl
  rw [List.enum_length] at hlen
  exact hne (List.length_eq_zero.mp hlen)

theorem show_comments_fields (api : TabNewsAPIOracle) (s : UIState) :
    (show_comments api s).current_content_page = s.current_content_page ∧
    (show_comments api s).content_pages = s.content_pages ∧
    (show_comments api s).selected_index = s.selected_index ∧
    (show_comments api s).contents = s.contents ∧
    (show_comments api s).feed_text = s.feed_text ∧
    (show_comments api s).current_content = s.current_content := by
  unfold show_comments
  cases hc : s.current_content with
  | none => simp [hc]
  | some cur =>
    cases hg : get_comments (api.commentsResp cur.owner_username cur.slug) <;> simp [hc, hg]

theorem show_comments_buffers (api : TabNewsAPIOracle) (s : UIState) :
    (show_comments api s).content_text = "" ∨ show_comments api s = s := by
  unfold show_comments
  cases hc : s.current_content with
  | none => exact Or.inr rfl
  | some cur =>
    cases hg : get_comments (api.commentsResp cur.owner_username cur.slug) <;>
      exact Or.inl (by simp [hg])

theorem show_content_ok_fields (api : TabNewsAPIOracle) (s : UIState)
    (content : ContentItem) (s' : UIState)
    (h : show_content api s content = Except.ok s') :
    s'.selected_index = s.selected_index ∧ s'.contents = s.contents ∧
    s'.feed_text = s.feed_text ∧ s'.comments_text = "" := by
  unfold show_content at h
  split at h
  · rename_i full hg
    dsimp only at h
    split at h
    · rename_i s3 hu
      simp only [Except.ok.injEq] at h
      subst h
      rcases update_content_view_ok _ _ hu with ⟨hemp, rfl⟩ | ⟨p, hp, rfl⟩
      · exact absurd hemp (prepare_pages_ne_nil _ full rfl)
      · exact ⟨rfl, rfl, rfl, rfl⟩
    · rename_i e2 hu
      rcases update_content_view_ok _ _ h with ⟨hemp, rfl⟩ | ⟨p, hp, rfl⟩
      · simp at hemp
      · exact ⟨rfl, rfl, rfl, rfl⟩
  · rename_i e hg
    rcases update_content_view_ok _ _ h with ⟨hemp, rfl⟩ | ⟨p, hp, rfl⟩
    · simp at hemp
    · exact ⟨rfl, rfl, rfl, rfl⟩

theorem pyGet_nil {α : Type} (i : Int) : pyGet ([] : List α) i = none := by
  unfold pyGet
  split
  · simp
  · split <;> simp

theorem isInfix_append_left {α : Type} (a b c : List α) (h : a <:+: b) : a <:+: b ++ c := by
  obtain ⟨u, v, huv⟩ := h
  exact ⟨u, v ++ c, by rw [← huv]; simp⟩

theorem isInfix_append_right {α : Type} (a b c : List α) (h : a <:+: c) : a <:+: b ++ c := by
  obtain ⟨u, v, huv⟩ := h
  exact ⟨b ++ u, v, by rw [← huv]; simp⟩

theorem infix_joinNl (x : String) : ∀ (ls : List String),
    (∃ l ∈ ls, x.data <:+: l.data) → x.data <:+: (pyJoinNl ls).data := by
  intro ls
  induction ls with
  | nil =>
    rintro ⟨l, hl, _⟩
    simp at hl
  | cons a as ih =>
    rintro ⟨l, hl, hinf⟩
    cases as with
    | nil =>
      simp only [List.mem_singleton] at hl
      subst hl
      exact hinf
    | cons b bs =>
      have hjoin : (pyJoinNl (a :: b :: bs)).data =
          a.data ++ '\n' :: (joinNlChars ((b :: bs).map String.data)) := rfl
      rw [hjoin]
      rcases List.mem_cons.mp hl with h2 | h2
      · exact isInfix_append_left _ _ _ (h2 ▸ hinf)
      · have hrest := ih ⟨l, h2, hinf⟩
        have : (pyJoinNl (b :: bs)).data = joinNlChars ((b :: bs).map String.data) := rfl
        rw [this] at hrest
        have h3 : x.data <:+: ['\n'] ++ joinNlChars ((b :: bs).map String.data) :=
          isInfix_append_right _ _ _ hrest
        exact isInfix_append_right _ _ _ h3

theorem greedyTake_head_fit (w curLen : Nat) (d : List Char) (drest : List (List Char))
    (h : curLen + d.length ≤ w) : (greedyTake w curLen (d :: drest)).1 ≠ [] := by
  simp only [greedyTake, if_pos h]
  simp

theorem chunksMeasure_pos (c : List Char) (rest : List (List Char)) :
    1 ≤ chunksMeasure (c :: rest) := by
  unfold chunksMeasure
  simp only [List.length_cons]
  omega

theorem wrapStep_measure (w : Nat) (C : List (List Char)) (hC : C ≠ []) :
    chunksMeasure ((wrapStep w C).2) < chunksMeasure C := by
  have happ := greedyTake_append w C 0
  have hCpos : 1 ≤ chunksMeasure C := by
    cases C with
    | nil => exact absurd rfl hC
    | cons c rest => exact chunksMeasure_pos c rest
  unfold wrapStep
  cases hr : (greedyTake w 0 C).2 with
  | nil =>
    have h2 : (handleLong w ((greedyTake w 0 C).1) ([] : List (List Char))).2 = [] := rfl
    rw [h2]
    exact lt_of_lt_of_le (by decide) hCpos
  | cons d drest =>
    have hC_eq : chunksMeasure C =
        2 * (((greedyTake w 0 C).1.map List.length).sum +
          (d.length + (drest.map List.length).sum)) +
        ((greedyTake w 0 C).1.length + (1 + drest.length)) := by
      conv_lhs => rw [← happ, hr]
      unfold chunksMeasure
      simp only [List.map_append, List.sum_append, List.length_append,
        List.map_cons, List.sum_cons, List.length_cons]
      ring
    simp only [handleLong]
    by_cases hlen : w < d.length
    · rw [if_pos hlen]
      have hd1 : 1 ≤ d.length := by omega
      have hsLle : (if w < 1 then 1
          else w - ((greedyTake w 0 C).1.map List.length).sum) ≤ d.length := by
        by_cases hw : w < 1
        · rw [if_pos hw]
          omega
        · rw [if_neg hw]
          omega
      have hsLpos : 1 ≤ (if w < 1 then 1
          else w - ((greedyTake w 0 C).1.map List.length).sum) ∨
          1 ≤ (greedyTake w 0 C).1.length := by
        by_cases hw : w < 1
        · rw [if_pos hw]
          exact Or.inl (le_refl 1)
        · rw [if_neg hw]
          by_cases hT : (greedyTake w 0 C).1 = []
          · rw [hT]
            simp only [List.map_nil, List.sum_nil, Nat.sub_zero]
            omega
          · exact Or.inr (List.length_pos.mpr hT)
      rw [hC_eq]
      simp only [chunksMeasure, List.map_cons, List.sum_cons, List.length_cons,
        List.length_drop]
      omega
    · rw [if_neg hlen]
      have ht_ne : (greedyTake w 0 C).1 ≠ [] := by
        intro ht
        rw [ht] at happ
        simp only [List.nil_append] at happ
        have hCd : C = d :: drest := by rw [← happ, hr]
        rw [hCd] at ht
        exact greedyTake_head_fit w 0 d drest (by omega) ht
      have htpos : 1 ≤ (greedyTake w 0 C).1.length := List.length_pos.mpr ht_ne
      rw [hC_eq]
      simp only [chunksMeasure, List.map_cons, List.sum_cons, List.length_cons]
      omega

theorem wrapStep_drop_measure (w : Nat) (b : Bool) (c : List Char)
    (rest : List (List Char)) :
    chunksMeasure ((wrapStep w (if !b && allSpaceChunk c then rest else c :: rest)).2) <
      chunksMeasure (c :: rest) := by
  by_cases hdrop : (!b && allSpaceChunk c) = true
  · rw [if_pos hdrop]
    cases hrest : rest with
    | nil =>
      have h2 : (wrapStep w ([] : List (List Char))).2 = [] := rfl
      rw [h2]
      exact lt_of_lt_of_le (by decide) (chunksMeasure_pos c [])
    | cons r1 rs =>
      have hlt := wrapStep_measure w (r1 :: rs) (by simp)
      refine lt_of_lt_of_le hlt ?_
      unfold chunksMeasure
      simp only [List.map_cons, List.sum_cons, List.length_cons]
      omega
  · rw [if_neg hdrop]
    exact wrapStep_measure w (c :: rest) (by simp)

theorem wrapChunksLoop_fuel_stable (w : Nat) :
    ∀ (f1 f2 : Nat) (cs : List (List Char)) (b : Bool),
      chunksMeasure cs < f1 → chunksMeasure cs < f2 →
      wrapChunksLoop w f1 cs b = wrapChunksLoop w f2 cs b := by
  intro f1
  induction f1 with
  | zero =>
    intro f2 cs b h1 _
    exact absurd h1 (by omega)
  | succ n ih =>
    intro f2 cs b h1 h2
    cases cs with
    | nil =>
      cases f2 with
      | zero => exact absurd h2 (by omega)
      | succ m => rfl
    | cons c rest =>
      cases f2 with
      | zero => exact absurd h2 (by omega)
      | succ m =>
        simp only [wrapChunksLoop]
        have hdec := wrapStep_drop_measure w b c rest
        have hlt := chunksMeasure_pos c rest
        have h1' : chunksMeasure
            ((wrapStep w (if !b && allSpaceChunk c then rest else c :: rest)).2) < n := by
          omega
        have h2' : chunksMeasure
            ((wrapStep w (if !b && allSpaceChunk c then rest else c :: rest)).2) < m := by
          omega
        by_cases hemp :
            ((wrapStep w (if !b && allSpaceChunk c then rest else c :: rest)).1).isEmpty = true
        · rw [if_pos hemp, if_pos hemp]
          exact ih m _ b h1' h2'
        · rw [if_neg hemp, if_neg hemp]
          rw [ih m _ false h1' h2']

/-- The fuel carried by `wrapChunks` is only an iteration bound: any fuel
exceeding the termination measure of the chunk list — in particular the
initial `chunksMeasure cs + 1` — computes the same result, so the
fuel-exhaustion branch of `wrapChunksLoop` is never taken. -/
theorem wrapChunks_fuel_sufficient (text : List Char) (w f : Nat)
    (hf : chunksMeasure (wordSplit (mungeWhitespace text)) < f) :
    wrapChunksLoop w f (wordSplit (mungeWhitespace text)) true = wrapChunks text w := by
  unfold wrapChunks
  exact wrapChunksLoop_fuel_stable w f _ _ true hf (by omega)

/-- C3, counterexamples to the claim as stated: `get_contents` raises on a
204 response even though 204 is a 2xx status (the code tests `!= 200`, not
"not 2xx"), and the raised error's text embeds the body's `message` field
in `"API Error (<status>): <message>"` rather than being that field
verbatim. -/
theorem c3_status_cex :
    get_contents ⟨204, none, []⟩ = Except.error "API Error (204): Unknown error" ∧
    200 ≤ 204 ∧ 204 < 300 ∧
    get_contents ⟨500, some "boom", []⟩ = Except.error "API Error (500): boom" ∧
    "API Error (500): boom" ≠ "boom" := by
  refine ⟨rfl, by omega, by omega, rfl, by decide⟩

/-- C3, amended: each read operation raises exactly when the HTTP status is
not 200, and the raised error text is `"API Error (<status>): <m>"` with
`m` the body's `message` field, defaulting to `"Unknown error"`. -/
theorem c3_error_contract (r1 r2 : Response (List ContentItem)) (r3 : Response ContentItem)
    (r4 : Response (List Comment)) :
    ((r1.status_code = 200 → get_contents r1 = Except.ok r1.body) ∧
     (r1.status_code ≠ 200 → get_contents r1 = Except.error
       ("API Error (" ++ toString r1.status_code ++ "): " ++
         r1.message.getD "Unknown error"))) ∧
    ((r2.status_code = 200 → get_user_contents r2 = Except.ok r2.body) ∧
     (r2.status_code ≠ 200 → get_user_contents r2 = Except.error
       ("API Error (" ++ toString r2.status_code ++ "): " ++
         r2.message.getD "Unknown error"))) ∧
    ((r3.status_code = 200 → get_content r3 = Except.ok r3.body) ∧
     (r3.status_code ≠ 200 → get_content r3 = Except.error
       ("API Error (" ++ toString r3.status_code ++ "): " ++
         r3.message.getD "Unknown error"))) ∧
    ((r4.status_code = 200 → get_comments r4 = Except.ok r4.body) ∧
     (r4.status_code ≠ 200 → get_comments r4 = Except.error
       ("API Error (" ++ toString r4.status_code ++ "): " ++
         r4.message.getD "Unknown error"))) := by
  refine ⟨⟨?_, ?_⟩, ⟨?_, ?_⟩, ⟨?_, ?_⟩, ⟨?_, ?_⟩⟩ <;> intro hst
  · unfold get_contents
    rw [if_neg (by omega)]
  · unfold get_contents
    rw [if_pos hst]
  · unfold get_user_contents
    rw [if_neg (by omega)]
  · unfold get_user_contents
    rw [if_pos hst]
  · unfold get_content
    rw [if_neg (by omega)]
  · unfold get_content
    rw [if_pos hst]
  · unfold get_comments
    rw [if_neg (by omega)]
  · unfold get_comments
    rw [if_pos hst]

/-- C3, witness for the amended contract at a 200 and a 500 response. -/
theorem c3_error_contract_witness :
    get_contents ⟨200, none, [itemA]⟩ = Except.ok [itemA] ∧
    get_comments ⟨500, some "boom", []⟩ = Except.error "API Error (500): boom" := by
  have h := c3_error_contract ⟨200, none, [itemA]⟩ ⟨200, none, []⟩
    ⟨200, none, itemA⟩ ⟨500, some "boom", []⟩
  exact ⟨h.1.1 rfl, h.2.2.2.2 (by decide)⟩

/-- C8: when the feed fetch fails with HTTP 500 and body message `"boom"`
(at the source's terminal width of 80), `update_feed` resets `contents` to
the empty list and sets the feed buffer to the page header followed by the
error block: the title line, the wrapped error message — which contains the
literal text `"boom"` — and the hint line. -/
theorem c8_feed_error_block (api : TabNewsAPIOracle) (s : UIState)
    (hw : s.terminal_width = 80)
    (hst : (api.contentsResp s.current_page 10 s.current_strategy).status_code = 500)
    (hmsg : (api.contentsResp s.current_page 10 s.current_strategy).message = some "boom") :
    (update_feed api s).contents = [] ∧
    (update_feed api s).feed_text = pyJoinNl [
      "[page]Page " ++ toString s.current_page ++ "[/page]",
      "",
      "[title]Error fetching content[/title]",
      "",
      "API Error (500): boom",
      "",
      "Try again later or change page."] ∧
    "boom".data <:+: ((update_feed api s).feed_text).data := by
  have herr : get_contents (api.contentsResp s.current_page 10 s.current_strategy) =
      Except.error "API Error (500): boom" := by
    unfold get_contents
    rw [if_pos (by omega), hst, hmsg]
    rfl
  have hwrap : wrap_text "API Error (500): boom" (s.terminal_width - 4) =
      "API Error (500): boom" := by
    rw [hw]
    decide
  have hupd := update_feed_error api s _ herr
  have hft : (update_feed api s).feed_text = pyJoinNl [
      "[page]Page " ++ toString s.current_page ++ "[/page]",
      "",
      "[title]Error fetching content[/title]",
      "",
      "API Error (500): boom",
      "",
      "Try again later or change page."] := by
    rw [hupd, hwrap]
  refine ⟨?_, hft, ?_⟩
  · rw [hupd]
  · rw [hft]
    apply infix_joinNl
    refine ⟨"API Error (500): boom", by simp, by decide⟩

/-- C8, witness against the concrete erroring server of the fixtures. -/
theorem c8_feed_error_block_witness :
    (update_feed apiErr500 initState).contents = [] ∧
    "boom".data <:+: ((update_feed apiErr500 initState).feed_text).data :=
  ⟨(c8_feed_error_block apiErr500 initState rfl rfl rfl).1,
   (c8_feed_error_block apiErr500 initState rfl rfl rfl).2.2⟩

/-- C9: pressing escape in the comments view returns to the content view
showing the article page at the unchanged `current_content_page`;
`show_comments` (entering the comments view) never changes that index;
escape in the feed view leaves the state unchanged; and up in the content
view at page 0 keeps the page index at 0. -/
theorem c9_state_machine :
    (∀ (api : TabNewsAPIOracle) (s s' : UIState), s.view_mode = "comments" →
      handleKey api Key.escape s = Except.ok s' →
      s'.view_mode = "content" ∧ s'.current_content_page = s.current_content_page ∧
      (∀ p, pyGet s.content_pages s.current_content_page = some p →
        s'.content_text = p)) ∧
    (∀ (api : TabNewsAPIOracle) (s : UIState),
      (show_comments api s).current_content_page = s.current_content_page ∧
      (show_comments api s).content_pages = s.content_pages) ∧
    (∀ (api : TabNewsAPIOracle) (s : UIState), s.view_mode = "feed" →
      handleKey api Key.escape s = Except.ok s) ∧
    (∀ (api : TabNewsAPIOracle) (s s' : UIState), s.view_mode = "content" →
      s.current_content_page = 0 → handleKey api Key.up s = Except.ok s' →
      s'.current_content_page = 0) := by
  refine ⟨?_, ?_, ?_, ?_⟩
  · intro api s s' hv h
    simp only [handleKey] at h
    rw [hv, if_neg (by decide), if_pos rfl] at h
    rcases update_content_view_ok _ _ h with ⟨hemp, rfl⟩ | ⟨p0, hp0, rfl⟩
    · refine ⟨rfl, rfl, ?_⟩
      intro p hp
      have hemp2 : s.content_pages = [] := hemp
      rw [hemp2, pyGet_nil] at hp
      exact absurd hp (by simp)
    · refine ⟨rfl, rfl, ?_⟩
      intro p hp
      have hp0' : pyGet s.content_pages s.current_content_page = some p0 := hp0
      rw [hp] at hp0'
      exact (Option.some_inj.mp hp0').symm
  · intro api s
    exact ⟨(show_comments_fields api s).1, (show_comments_fields api s).2.1⟩
  · intro api s hv
    simp only [handleKey]
    rw [hv, if_neg (by decide), if_neg (by decide)]
  · intro api s s' hv hp0 h
    simp only [handleKey] at h
    rw [hv, if_neg (by decide), if_pos rfl, hp0] at h
    rw [show max (0 : Int) (0 - 1) = 0 from by decide] at h
    rcases update_content_view_ok _ _ h with ⟨_, rfl⟩ | ⟨p0, _, rfl⟩
    · rfl
    · rfl

/-- C9, witness: in a concrete comments-view state at article page 1,
escape shows page `"B"` (index 1) again. -/
theorem c9_state_machine_witness :
    stateComments.view_mode = "comments" ∧
    (exGetD (handleKey apiOk1 Key.escape stateComments) stateComments).content_text = "B" :=
  ⟨rfl, (c9_state_machine.1 apiOk1 stateComments
    (exGetD (handleKey apiOk1 Key.escape stateComments) stateComments) rfl rfl).2.2
    "B" rfl⟩

/-- C10: in feed mode with a non-empty contents list and
`selected_index ≥ len(contents)`, the enter handler's unguarded access
`contents[selected_index]` raises an uncaught `IndexError`; moreover such a
state is reachable — `trace2`, reached from the initial state by a feed
load and two down events with the server's feed shrinking from two items
to one in between, is exactly of this shape. -/
theorem c10_enter_index_error :
    (∀ (api : TabNewsAPIOracle) (s : UIState), s.view_mode = "feed" → s.contents ≠ [] →
      (s.contents.length : Int) ≤ s.selected_index →
      handleKey api Key.enter s = Except.error "IndexError") ∧
    (trace2.view_mode = "feed" ∧ trace2.contents ≠ [] ∧
      (trace2.contents.length : Int) ≤ trace2.selected_index) := by
  constructor
  · intro api s hv hne hge
    simp only [handleKey]
    rw [if_pos ⟨hv, hne⟩]
    have h1 : 0 < s.contents.length := List.length_pos.mpr hne
    have h0 : (0:Int) ≤ s.selected_index := by omega
    rw [pyGet_none_of_len_le s.contents s.selected_index h0 hge]
  · exact ⟨by decide, by decide, by decide⟩

/-- C10, witness: pressing enter in the reachable stale-selection state
`trace2` raises the uncaught `IndexError`. -/
theorem c10_enter_index_error_witness :
    handleKey apiOk1 Key.enter trace2 = Except.error "IndexError" :=
  c10_enter_index_error.1 apiOk1 trace2 (by decide) (by decide) (by decide)

/-- C1, the code evaluated at the failing input: starting from the initial
state, the feed is loaded with two items, down moves the selection to
index 1, and a further down against a server that now returns one item
leaves `selected_index = 1` while `contents` has length 1 — the selection
index is NOT re-clamped against the refetched list, violating the claimed
invariant, and the next enter raises an uncaught `IndexError`. -/
theorem c1_stale_selection_trace :
    trace0.selected_index = 0 ∧ trace0.contents.length = 2 ∧
    trace1.selected_index = 1 ∧ trace1.contents.length = 2 ∧
    trace2.view_mode = "feed" ∧ trace2.selected_index = 1 ∧
    trace2.contents.length = 1 ∧
    ¬ (trace2.selected_index ≤ (trace2.contents.length : Int) - 1) ∧
    handleKey apiOk1 Key.enter trace2 = Except.error "IndexError" := by decide

/-- C2, counterexample: after `update_feed` (non-empty feed) and an enter
event opening the selected article, the feed buffer and the content buffer
are both non-empty — switching views does not clear the feed buffer. -/
theorem c2_buffers_cex :
    stateContent1.view_mode = "content" ∧
    stateContent1.feed_text ≠ "" ∧ stateContent1.content_text ≠ "" := by decide

/-- C2, amended: after every buffer-updating operation at most one of the
content and comments buffers holds non-empty text (`update_feed` clears
both, the other operations clear the respective sibling), but the feed
buffer is never cleared by a view switch, so it may be non-empty together
with one of the other two. -/
theorem c2_content_comments_exclusive (api : TabNewsAPIOracle) (s : UIState) :
    ((update_feed api s).content_text = "" ∧ (update_feed api s).comments_text = "") ∧
    ((s.content_text = "" ∨ s.comments_text = "") →
      ∀ s', update_content_view s = Except.ok s' →
        (s'.content_text = "" ∨ s'.comments_text = "")) ∧
    ((s.content_text = "" ∨ s.comments_text = "") →
      ((show_comments api s).content_text = "" ∨
        (show_comments api s).comments_text = "")) ∧
    (∀ (c : ContentItem) (s' : UIState), show_content api s c = Except.ok s' →
      (s'.content_text = "" ∨ s'.comments_text = "")) := by
  refine ⟨⟨(update_feed_fields api s).2.2.2.2.2.1,
    (update_feed_fields api s).2.2.2.2.2.2⟩, ?_, ?_, ?_⟩
  · intro hinv s' h
    rcases update_content_view_ok _ _ h with ⟨_, rfl⟩ | ⟨p, _, rfl⟩
    · exact hinv
    · exact Or.inr rfl
  · intro hinv
    rcases show_comments_buffers api s with h | h
    · exact Or.inl h
    · rw [h]
      exact hinv
  · intro c s' h
    exact Or.inr (show_content_ok_fields api s c s' h).2.2.2

/-- C2, witness: the feed rebuild clears both other buffers, and showing
comments from the concrete article state keeps the exclusivity of the
content and comments buffers. -/
theorem c2_content_comments_exclusive_witness :
    ((update_feed apiOk1 initState).content_text = "" ∧
      (update_feed apiOk1 initState).comments_text = "") ∧
    ((show_comments apiOk1 stateContent1).content_text = "" ∨
      (show_comments apiOk1 stateContent1).comments_text = "") :=
  ⟨(c2_content_comments_exclusive apiOk1 initState).1,
   (c2_content_comments_exclusive apiOk1 stateContent1).2.2.1 (by decide)⟩

end TabNews

